import Mathlib

/-!
Verification of the BLS12-381 min_pk wrapper (`src/rust/src/api/bls.rs`).

The repository's own code is the three wrapper functions
`bls12381_min_pk_verify`, `bls12381_min_pk_aggregate` and
`bls12381_min_pk_verify_aggregate`, plus the `DST` constant; they delegate
the curve arithmetic to the external `blst` library.  The wrapper functions
are embedded here exactly as written in the source.  The `blst` layer
(decoding of compressed points with subgroup checks, the pairing-based
verification routine, point-sum aggregation) is an external dependency not
present in the repository, so it is modelled from the specification's
description of it, over a concrete small pairing-friendly setting: the
G1 curve group is `ZMod 65` (prime-order-13 subgroup of index 5), the G2
curve group is `ZMod 91` (prime-order-13 subgroup of index 7), the target
group is `ZMod 13`, and the pairing on the subgroups is multiplication of
discrete logarithms.  Byte buffers are `List Nat` with each entry a byte
value; points serialize to fixed-width big-endian encodings (48 bytes for
G1, 96 bytes for G2), mirroring the compressed-point widths of the real
curve.
-/

namespace BlsDart

set_option maxRecDepth 100000

/-- Order of the prime-order subgroups (stand-in for the BLS12-381 scalar
field order). -/
abbrev rOrder : Nat := 13

/-- Cofactor of the G1 curve group in the model. -/
abbrev cof1 : Nat := 5

/-- Cofactor of the G2 curve group in the model. -/
abbrev cof2 : Nat := 7

/-- Order of the full G1 curve group in the model. -/
abbrev n1 : Nat := 65

/-- Order of the full G2 curve group in the model. -/
abbrev n2 : Nat := 91

/-- A G1 curve point (public keys live here in min_pk). -/
abbrev PublicKey := ZMod n1

/-- A G2 curve point (signatures live here in min_pk). -/
abbrev Signature := ZMod n2

/-- An aggregate signature is algebraically identical in type to a
signature: a G2 curve point. -/
abbrev AggregateSignature := ZMod n2

/-- Membership in the correct prime-order subgroup of G1. -/
def inG1 (p : PublicKey) : Prop := p.val % cof1 = 0

/-- Membership in the correct prime-order subgroup of G2. -/
def inG2 (q : Signature) : Prop := q.val % cof2 = 0

instance (p : PublicKey) : Decidable (inG1 p) :=
  inferInstanceAs (Decidable (_ = _))

instance (q : Signature) : Decidable (inG2 q) :=
  inferInstanceAs (Decidable (_ = _))

/-- Big-endian interpretation of a byte buffer as a natural number. -/
def bytesToNat (b : List Nat) : Nat := b.foldl (fun a x => a * 256 + x) 0

/-- Little-endian value of a digit list, used to reason about
`bytesToNat`. -/
def valLE : List Nat → Nat
  | [] => 0
  | x :: l => x + 256 * valLE l

/-- Little-endian base-256 digits of a number, padded/truncated to a fixed
width. -/
def natToBytesLE : Nat → Nat → List Nat
  | 0, _ => []
  | k + 1, v => v % 256 :: natToBytesLE k (v / 256)

/-- Fixed-width big-endian serialization of a natural number. -/
def natToBytes (k v : Nat) : List Nat := (natToBytesLE k v).reverse

/-- A well-formed byte buffer of width `k`: correct length, every entry a
byte value. -/
def bytesOk (k : Nat) (b : List Nat) : Prop :=
  b.length = k ∧ ∀ x ∈ b, x < 256

instance (k : Nat) (b : List Nat) : Decidable (bytesOk k b) :=
  inferInstanceAs (Decidable (_ ∧ _))

/-- Modelled from the spec: `blst::min_pk::PublicKey::from_bytes`, the
decoder for 48-byte compressed G1 points.  Per the spec's Decoder contract
it rejects wrong-length buffers, invalid encodings (values that do not
denote a curve point) and points outside the correct prime-order
subgroup. -/
def PublicKey.from_bytes (b : List Nat) : Option PublicKey :=
  if bytesOk 48 b ∧ bytesToNat b < n1 ∧ bytesToNat b % cof1 = 0 then
    some ((bytesToNat b : Nat) : ZMod n1)
  else
    none

/-- Modelled from the spec: `blst::min_pk::Signature::from_bytes`, the
decoder for 96-byte compressed G2 points, with the same rejection rules as
the public-key decoder. -/
def Signature.from_bytes (b : List Nat) : Option Signature :=
  if bytesOk 96 b ∧ bytesToNat b < n2 ∧ bytesToNat b % cof2 = 0 then
    some ((bytesToNat b : Nat) : ZMod n2)
  else
    none

/-- Modelled from the spec: `Signature::to_bytes`, the canonical 96-byte
compressed serialization of a G2 point. -/
def Signature.to_bytes (q : Signature) : List Nat := natToBytes 96 q.val

/-- Generator of the prime-order subgroup of G1 in the model. -/
def G1gen : PublicKey := (cof1 : ZMod n1)

/-- Generator of the prime-order subgroup of G2 in the model. -/
def G2gen : Signature := (cof2 : ZMod n2)

/-- Modelled from the spec: the bilinear pairing `e : G1 × G2 → GT`.  On
subgroup elements `a • G1gen` and `b • G2gen` it returns `a * b` in the
scalar field. -/
def pairing (p : PublicKey) (q : Signature) : ZMod rOrder :=
  ((p.val / cof1) * (q.val / cof2) : Nat)

/-- Modelled from the spec: hash-to-curve of a message under a domain
separation tag, landing in the prime-order subgroup of G2. -/
def hash_to_g2 (dst m : List Nat) : Signature :=
  ((cof2 * ((dst ++ m).foldl (fun a x => (a * 256 + x) % rOrder) 0) : Nat) :
    ZMod n2)

/-- Domain Separation Tag for BLS12-381 min_pk (G2 signatures), from the
source: `b"BLS_SIG_BLS12381G2_XMD:SHA-256_SSWU_RO_NUL_"`. -/
def DST : List Nat :=
  "BLS_SIG_BLS12381G2_XMD:SHA-256_SSWU_RO_NUL_".data.map Char.toNat

/-- Modelled from the spec: `blst`'s combined group-check + pairing
verification routine `Signature::verify(sig_groupcheck, msg, dst, aug, pk,
pk_validate)`.  It runs the requested subgroup checks and then evaluates
the BLS pairing equation `e(G1gen, sig) = e(pk, H(aug ++ msg))` under
`dst`; it returns success exactly when the checks and the equation hold. -/
def Signature.verify (sig : Signature) (sig_groupcheck : Bool)
    (msg dst aug : List Nat) (pk : PublicKey) (pk_validate : Bool) : Bool :=
  if sig_groupcheck ∧ ¬ inG2 sig then false
  else if pk_validate ∧ ¬ inG1 pk then false
  else decide (pairing G1gen sig = pairing pk (hash_to_g2 dst (aug ++ msg)))

/-- Modelled from the spec: `blst::min_pk::AggregateSignature::aggregate`,
which sums G2 signature points by the curve group operation, group-checking
each when the flag is set, and fails on an empty input slice. -/
def AggregateSignature.aggregate (sigs : List Signature) (validate : Bool) :
    Option AggregateSignature :=
  if sigs.isEmpty then none
  else if validate ∧ ¬ (∀ s ∈ sigs, inG2 s) then none
  else some sigs.sum

/-- Modelled from the spec: `AggregateSignature::to_signature`, the
identity on the underlying G2 point. -/
def AggregateSignature.to_signature (a : AggregateSignature) : Signature := a

/-- Modelled from the spec: `blst`'s `Signature::fast_aggregate_verify`,
the standard fast-aggregate-verify equation
`e(G1gen, aggSig) = e(Σ publicKeys, H(msg))` under `dst`, preceded by the
requested signature group check. -/
def Signature.fast_aggregate_verify (sig : Signature) (sig_groupcheck : Bool)
    (msg dst : List Nat) (pks : List PublicKey) : Bool :=
  if sig_groupcheck ∧ ¬ inG2 sig then false
  else decide (pairing G1gen sig = pairing pks.sum (hash_to_g2 dst msg))

/-- Translated from the source (`bls.rs`, lines 28–41): verify a single
BLS12-381 min_pk signature; decode failures return `false`, otherwise the
library verify routine is called with `sig_groupcheck = true`, the fixed
`DST`, no augmentation and `pk_validate = true`. -/
def bls12381_min_pk_verify (sig_bytes pk_bytes msg : List Nat) : Bool :=
  match PublicKey.from_bytes pk_bytes with
  | none => false
  | some pk =>
    match Signature.from_bytes sig_bytes with
    | none => false
    | some sig => Signature.verify sig true msg DST [] pk true

/-- Translated from the source (`bls.rs`, lines 50–71): aggregate multiple
BLS12-381 min_pk signatures; returns the empty buffer on an empty input
list, on any decode failure, and on aggregation failure. -/
def bls12381_min_pk_aggregate (sigs_bytes : List (List Nat)) : List Nat :=
  if sigs_bytes.isEmpty then []
  else
    match sigs_bytes.mapM Signature.from_bytes with
    | none => []
    | some sigs =>
      match AggregateSignature.aggregate sigs true with
      | none => []
      | some agg => Signature.to_bytes (AggregateSignature.to_signature agg)

/-- Translated from the source (`bls.rs`, lines 82–107): verify an
aggregate BLS12-381 min_pk signature over one shared message; an empty
public-key list and all decode failures return `false`. -/
def bls12381_min_pk_verify_aggregate (pks_bytes : List (List Nat))
    (msg agg_sig_bytes : List Nat) : Bool :=
  if pks_bytes.isEmpty then false
  else
    match pks_bytes.mapM PublicKey.from_bytes with
    | none => false
    | some pks =>
      match Signature.from_bytes agg_sig_bytes with
      | none => false
      | some sig => Signature.fast_aggregate_verify sig true msg DST pks

/-- The single-signature verifier with the domain separation tag and the
augmentation string abstracted out, used to state which constants the
wrapper passes. -/
def minPkVerifyWith (dst aug : List Nat) (sig_bytes pk_bytes msg : List Nat) :
    Bool :=
  match PublicKey.from_bytes pk_bytes with
  | none => false
  | some pk =>
    match Signature.from_bytes sig_bytes with
    | none => false
    | some sig => Signature.verify sig true msg dst aug pk true

/-- The aggregate verifier with the domain separation tag and the
augmentation string abstracted out: the augmentation is prepended to the
message before hashing, as in the augmented scheme. -/
def minPkVerifyAggregateWith (dst aug : List Nat) (pks_bytes : List (List Nat))
    (msg agg_sig_bytes : List Nat) : Bool :=
  if pks_bytes.isEmpty then false
  else
    match pks_bytes.mapM PublicKey.from_bytes with
    | none => false
    | some pks =>
      match Signature.from_bytes agg_sig_bytes with
      | none => false
      | some sig => Signature.fast_aggregate_verify sig true (aug ++ msg) dst pks

instance : NeZero n1 := ⟨by norm_num⟩

instance : NeZero n2 := ⟨by norm_num⟩

/-! ### Byte-serialization lemmas -/

lemma natToBytesLE_length (k v : Nat) : (natToBytesLE k v).length = k := by
  induction k generalizing v with
  | zero => rfl
  | succ k ih => simp [natToBytesLE, ih]

lemma natToBytesLE_lt (k v : Nat) : ∀ x ∈ natToBytesLE k v, x < 256 := by
  induction k generalizing v with
  | zero => intro x hx; cases hx
  | succ k ih =>
    intro x hx
    rcases List.mem_cons.mp hx with rfl | hx'
    · exact Nat.mod_lt _ (by norm_num)
    · exact ih _ x hx'

lemma valLE_natToBytesLE (k v : Nat) (h : v < 256 ^ k) :
    valLE (natToBytesLE k v) = v := by
  induction k generalizing v with
  | zero =>
    interval_cases v
    rfl
  | succ k ih =>
    have hdiv : v / 256 < 256 ^ k := by
      rw [Nat.div_lt_iff_lt_mul (by norm_num : 0 < 256)]
      calc v < 256 ^ (k + 1) := h
        _ = 256 ^ k * 256 := by rw [pow_succ]
    simp only [natToBytesLE, valLE, ih _ hdiv]
    omega

lemma natToBytesLE_valLE (l : List Nat) (h : ∀ x ∈ l, x < 256) :
    natToBytesLE l.length (valLE l) = l := by
  induction l with
  | nil => rfl
  | cons x xs ih =>
    have hx : x < 256 := h x (List.mem_cons_self _ _)
    have hmod : (x + 256 * valLE xs) % 256 = x := by omega
    have hdiv : (x + 256 * valLE xs) / 256 = valLE xs := by omega
    simp only [List.length_cons, natToBytesLE, valLE, hmod, hdiv]
    rw [ih (fun y hy => h y (List.mem_cons_of_mem _ hy))]

lemma valLE_append (l : List Nat) (x : Nat) :
    valLE (l ++ [x]) = valLE l + x * 256 ^ l.length := by
  induction l with
  | nil => simp [valLE]
  | cons y ys ih =>
    simp only [List.cons_append, valLE, List.append_eq, List.length_cons,
      pow_succ]
    rw [ih]
    ring

lemma foldl_byte (b : List Nat) (a : Nat) :
    b.foldl (fun acc x => acc * 256 + x) a =
      a * 256 ^ b.length + valLE b.reverse := by
  induction b generalizing a with
  | nil => simp [valLE]
  | cons x xs ih =>
    simp only [List.foldl_cons, ih, List.reverse_cons, valLE_append,
      List.length_reverse, List.length_cons, pow_succ]
    ring

lemma bytesToNat_eq (b : List Nat) : bytesToNat b = valLE b.reverse := by
  unfold bytesToNat
  rw [foldl_byte]
  ring

lemma natToBytes_length (k v : Nat) : (natToBytes k v).length = k := by
  unfold natToBytes
  rw [List.length_reverse, natToBytesLE_length]

lemma natToBytes_lt (k v : Nat) : ∀ x ∈ natToBytes k v, x < 256 := by
  intro x hx
  exact natToBytesLE_lt k v x (List.mem_reverse.mp hx)

lemma bytesToNat_natToBytes (k v : Nat) (h : v < 256 ^ k) :
    bytesToNat (natToBytes k v) = v := by
  unfold natToBytes
  rw [bytesToNat_eq, List.reverse_reverse, valLE_natToBytesLE k v h]

lemma natToBytes_bytesToNat (k : Nat) (b : List Nat) (hb : bytesOk k b) :
    natToBytes k (bytesToNat b) = b := by
  obtain ⟨hlen, hdig⟩ := hb
  unfold natToBytes
  rw [bytesToNat_eq]
  have hrev : ∀ x ∈ b.reverse, x < 256 := fun x hx =>
    hdig x (List.mem_reverse.mp hx)
  have : natToBytesLE b.reverse.length (valLE b.reverse) = b.reverse :=
    natToBytesLE_valLE b.reverse hrev
  rw [List.length_reverse, hlen] at this
  rw [this, List.reverse_reverse]

/-! ### Decode/encode lemmas -/

lemma Signature.from_bytes_spec {b : List Nat} {sp : Signature}
    (h : Signature.from_bytes b = some sp) :
    inG2 sp ∧ Signature.to_bytes sp = b := by
  unfold Signature.from_bytes at h
  split at h
  · rename_i hc
    obtain ⟨hok, hlt, hmod⟩ := hc
    injection h with h'
    subst h'
    have hval : ((bytesToNat b : Nat) : ZMod n2).val = bytesToNat b :=
      ZMod.val_cast_of_lt hlt
    refine ⟨?_, ?_⟩
    · unfold inG2
      rw [hval]
      exact hmod
    · unfold Signature.to_bytes
      rw [hval]
      exact natToBytes_bytesToNat 96 b hok
  · cases h

lemma inG1_of_from_bytes {b : List Nat} {pp : PublicKey}
    (h : PublicKey.from_bytes b = some pp) : inG1 pp := by
  unfold PublicKey.from_bytes at h
  split at h
  · rename_i hc
    obtain ⟨hok, hlt, hmod⟩ := hc
    injection h with h'
    subst h'
    unfold inG1
    rw [ZMod.val_cast_of_lt hlt]
    exact hmod
  · cases h

lemma Signature.from_bytes_to_bytes {q : Signature} (hq : inG2 q) :
    Signature.from_bytes (Signature.to_bytes q) = some q := by
  have hlt : q.val < n2 := ZMod.val_lt q
  have hbn : bytesToNat (natToBytes 96 q.val) = q.val :=
    bytesToNat_natToBytes 96 q.val (lt_of_lt_of_le hlt (by norm_num))
  unfold Signature.from_bytes Signature.to_bytes
  rw [hbn]
  rw [if_pos ⟨⟨natToBytes_length 96 q.val, natToBytes_lt 96 q.val⟩, hlt, hq⟩]
  exact congrArg some (ZMod.natCast_rightInverse q)

/-! ### Option mapM lemmas -/

lemma mapM_eq_none_of_mem {α β : Type} {f : α → Option β} {l : List α} {b : α}
    (hmem : b ∈ l) (hb : f b = none) : l.mapM f = none := by
  induction l with
  | nil => cases hmem
  | cons x xs ih =>
    rw [List.mapM_cons]
    rcases List.mem_cons.mp hmem with rfl | hmem'
    · rw [hb]
      rfl
    · cases hx : f x
      · rfl
      · rw [ih hmem']
        rfl

lemma mapM_eq_some_map {α β : Type} {f : α → Option β} {g : α → β}
    {l : List α} (h : ∀ b ∈ l, f b = some (g b)) :
    l.mapM f = some (l.map g) := by
  induction l with
  | nil => rfl
  | cons x xs ih =>
    rw [List.mapM_cons, h x (List.mem_cons_self _ _),
      ih (fun b hb => h b (List.mem_cons_of_mem _ hb))]
    rfl

/-! ### Subgroup-closure lemmas -/

lemma inG2_zero : inG2 (0 : Signature) := by decide

lemma inG2_add {a b : Signature} (ha : inG2 a) (hb : inG2 b) :
    inG2 (a + b) := by
  have h := ZMod.val_add a b
  simp only [inG2, cof2, n2] at *
  omega

lemma inG2_sum {l : List Signature} (h : ∀ s ∈ l, inG2 s) : inG2 l.sum := by
  induction l with
  | nil => exact inG2_zero
  | cons x xs ih =>
    rw [List.sum_cons]
    exact inG2_add (h x (List.mem_cons_self _ _))
      (ih (fun s hs => h s (List.mem_cons_of_mem _ hs)))

/-! ### Shared aggregation lemmas -/

lemma aggregate_some_of_all_inG2 (sigs : List Signature) (hne : sigs ≠ [])
    (h : ∀ s ∈ sigs, inG2 s) :
    AggregateSignature.aggregate sigs true = some sigs.sum := by
  unfold AggregateSignature.aggregate
  rw [if_neg (by simp [hne]), if_neg (fun hc => hc.2 h)]

lemma aggregate_singleton_eq {b : List Nat} {sp : Signature}
    (h : Signature.from_bytes b = some sp) :
    bls12381_min_pk_aggregate [b] = b := by
  obtain ⟨hg2, htob⟩ := Signature.from_bytes_spec h
  have hmap : ([b] : List (List Nat)).mapM Signature.from_bytes =
      some [sp] := by
    rw [List.mapM_cons, h]
    rfl
  have hagg : AggregateSignature.aggregate [sp] true = some sp := by
    rw [aggregate_some_of_all_inG2 [sp] (by simp)
      (by intro s hs; rw [List.mem_singleton.mp hs]; exact hg2)]
    rw [List.sum_cons, List.sum_nil, add_zero]
  unfold bls12381_min_pk_aggregate
  simp only [hmap, hagg, List.isEmpty_cons, Bool.false_eq_true, if_false]
  exact htob

lemma aggregate_result_point (L : List (List Nat))
    (h : bls12381_min_pk_aggregate L ≠ []) :
    ∃ agg : Signature, inG2 agg ∧
      bls12381_min_pk_aggregate L = Signature.to_bytes agg := by
  unfold bls12381_min_pk_aggregate at h ⊢
  by_cases hemp : L.isEmpty = true
  · rw [if_pos hemp] at h
    exact absurd rfl h
  · rw [if_neg hemp] at h ⊢
    cases hm : L.mapM Signature.from_bytes with
    | none =>
      rw [hm] at h
      exact absurd rfl h
    | some sigs =>
      rw [hm] at h
      have h2 : (match AggregateSignature.aggregate sigs true with
          | none => ([] : List Nat)
          | some a2 => Signature.to_bytes (AggregateSignature.to_signature a2))
          ≠ [] := h
      show ∃ agg : Signature, inG2 agg ∧
        (match AggregateSignature.aggregate sigs true with
          | none => ([] : List Nat)
          | some a2 => Signature.to_bytes (AggregateSignature.to_signature a2))
          = Signature.to_bytes agg
      cases ha : AggregateSignature.aggregate sigs true with
      | none =>
        rw [ha] at h2
        exact absurd rfl h2
      | some agg =>
        refine ⟨agg, ?_, rfl⟩
        unfold AggregateSignature.aggregate at ha
        split at ha
        · cases ha
        · split at ha
          · cases ha
          · rename_i hcond
            injection ha with ha'
            subst ha'
            apply inG2_sum
            by_contra hno
            exact hcond ⟨rfl, hno⟩

/-! ### Claim theorems -/

/-- C1: for every signature buffer, public-key buffer, and message where
both buffers decode to valid subgroup-checked points,
`bls12381_min_pk_verify` returns true if and only if the BLS pairing
equation (generator side against the signature equals public-key side
against the hash of the message under the fixed `DST` with no
augmentation) holds. -/
theorem verify_iff_pairing_eq (s p m : List Nat) (sp : Signature)
    (pp : PublicKey) (hs : Signature.from_bytes s = some sp)
    (hp : PublicKey.from_bytes p = some pp) :
    bls12381_min_pk_verify s p m = true ↔
      pairing G1gen sp = pairing pp (hash_to_g2 DST m) := by
  have hg2 := (Signature.from_bytes_spec hs).1
  have hg1 := inG1_of_from_bytes hp
  unfold bls12381_min_pk_verify
  rw [hp, hs]
  show Signature.verify sp true m DST [] pp true = true ↔ _
  unfold Signature.verify
  rw [if_neg (by simp [hg2]), if_neg (by simp [hg1])]
  simp

/-- Witness for C1 at a concrete decodable signature/key pair. -/
theorem verify_iff_pairing_eq_witness :
    bls12381_min_pk_verify (natToBytes 96 7) (natToBytes 48 5) [] = true ↔
      pairing G1gen (7 : ZMod n2) = pairing (5 : ZMod n1) (hash_to_g2 DST []) :=
  verify_iff_pairing_eq (natToBytes 96 7) (natToBytes 48 5) []
    (7 : ZMod n2) (5 : ZMod n1) (by decide) (by decide)

/-- C2: `bls12381_min_pk_verify` is total (it is a plain function into
`Bool` in this embedding, mirroring the source's early returns), and any
input whose decode fails yields `false`. -/
theorem verify_false_of_decode_failure (s p m : List Nat)
    (h : PublicKey.from_bytes p = none ∨ Signature.from_bytes s = none) :
    bls12381_min_pk_verify s p m = false := by
  unfold bls12381_min_pk_verify
  rcases h with h | h
  · rw [h]
  · cases hp : PublicKey.from_bytes p
    · rfl
    · rw [h]

/-- Witness for C2 on empty byte buffers. -/
theorem verify_false_of_decode_failure_witness :
    bls12381_min_pk_verify [] [] [] = false :=
  verify_false_of_decode_failure [] [] [] (Or.inl (by decide))

/-- C3: if any public-key buffer fails to decode, or the
aggregate-signature buffer fails to decode, then
`bls12381_min_pk_verify_aggregate` returns false. -/
theorem verify_aggregate_false_of_decode_failure (pks : List (List Nat))
    (m a : List Nat)
    (h : (∃ pb ∈ pks, PublicKey.from_bytes pb = none) ∨
      Signature.from_bytes a = none) :
    bls12381_min_pk_verify_aggregate pks m a = false := by
  unfold bls12381_min_pk_verify_aggregate
  by_cases hemp : pks.isEmpty = true
  · rw [if_pos hemp]
  · rw [if_neg hemp]
    rcases h with ⟨pb, hmem, hnone⟩ | hsig
    · rw [mapM_eq_none_of_mem hmem hnone]
    · cases hm : pks.mapM PublicKey.from_bytes
      · rfl
      · rw [hsig]

/-- Witness for C3 with one undecodable (empty) public-key buffer. -/
theorem verify_aggregate_false_of_decode_failure_witness :
    bls12381_min_pk_verify_aggregate [[]] [] [] = false :=
  verify_aggregate_false_of_decode_failure [[]] [] []
    (Or.inl ⟨[], by decide, by decide⟩)

/-- C4: for every list of signature buffers containing at least one entry
that fails to decode (wrong length, invalid encoding, or a point outside
the correct prime-order subgroup — all rejected by the spec's decoder),
`bls12381_min_pk_aggregate` returns the empty buffer, with no partial
aggregation of the valid subset. -/
theorem aggregate_empty_of_malformed (sigs : List (List Nat)) (b : List Nat)
    (hmem : b ∈ sigs) (hbad : Signature.from_bytes b = none) :
    bls12381_min_pk_aggregate sigs = [] := by
  unfold bls12381_min_pk_aggregate
  by_cases hemp : sigs.isEmpty = true
  · rw [if_pos hemp]
  · rw [if_neg hemp, mapM_eq_none_of_mem hmem hbad]

/-- Witness for C4 on a buffer of correct length and valid encoding whose
point lies outside the prime-order subgroup. -/
theorem aggregate_empty_of_malformed_witness :
    bls12381_min_pk_aggregate [natToBytes 96 1] = [] :=
  aggregate_empty_of_malformed [natToBytes 96 1] (natToBytes 96 1)
    (by decide) (by decide)

/-- C5: for every list of valid signature buffers and every permutation of
that list, `bls12381_min_pk_aggregate` returns byte-identical output on
the original list and on the permuted list. -/
theorem aggregate_perm_invariant (L Lp : List (List Nat)) (hperm : L.Perm Lp)
    (hvalid : ∀ b ∈ L, (Signature.from_bytes b).isSome = true) :
    bls12381_min_pk_aggregate L = bls12381_min_pk_aggregate Lp := by
  have hf : ∀ b ∈ L,
      Signature.from_bytes b = some ((Signature.from_bytes b).getD 0) := by
    intro b hb
    cases hfb : Signature.from_bytes b with
    | none =>
      have := hvalid b hb
      rw [hfb] at this
      cases this
    | some v => rfl
  have hf' : ∀ b ∈ Lp,
      Signature.from_bytes b = some ((Signature.from_bytes b).getD 0) :=
    fun b hb => hf b (hperm.mem_iff.mpr hb)
  by_cases hemp : L.isEmpty = true
  · have hL : L = [] := by
      cases L
      · rfl
      · cases hemp
    subst hL
    have hLp : Lp = [] := hperm.symm.eq_nil
    subst hLp
    rfl
  · have hLne : L ≠ [] := by
      intro hL
      subst hL
      exact hemp rfl
    have hLpne : Lp ≠ [] := by
      intro hLp
      subst hLp
      exact hLne hperm.eq_nil
    have hemp' : ¬ (Lp.isEmpty = true) := by
      cases Lp
      · exact absurd rfl hLpne
      · intro hc
        cases hc
    have hall : ∀ s ∈ L.map fun b => (Signature.from_bytes b).getD 0,
        inG2 s := by
      intro s hs
      obtain ⟨b, hb, rfl⟩ := List.mem_map.mp hs
      exact (Signature.from_bytes_spec (hf b hb)).1
    have hall' : ∀ s ∈ Lp.map fun b => (Signature.from_bytes b).getD 0,
        inG2 s := by
      intro s hs
      obtain ⟨b, hb, rfl⟩ := List.mem_map.mp hs
      exact (Signature.from_bytes_spec (hf' b hb)).1
    unfold bls12381_min_pk_aggregate
    rw [if_neg hemp, if_neg hemp']
    simp only [mapM_eq_some_map hf, mapM_eq_some_map hf',
      aggregate_some_of_all_inG2 _ (by simp [hLne]) hall,
      aggregate_some_of_all_inG2 _ (by simp [hLpne]) hall']
    rw [(hperm.map fun b => (Signature.from_bytes b).getD 0).sum_eq]

/-- Witness for C5 on a two-element list and its reversal. -/
theorem aggregate_perm_invariant_witness :
    bls12381_min_pk_aggregate [natToBytes 96 7, natToBytes 96 14] =
      bls12381_min_pk_aggregate [natToBytes 96 14, natToBytes 96 7] :=
  aggregate_perm_invariant [natToBytes 96 7, natToBytes 96 14]
    [natToBytes 96 14, natToBytes 96 7] (by decide) (by decide)

/-- C6: for every single buffer that decodes as a valid subgroup-checked
G2 signature, `bls12381_min_pk_aggregate` applied to the singleton list
containing that buffer returns a buffer byte-identical to it. -/
theorem aggregate_singleton (b : List Nat) (sp : Signature)
    (h : Signature.from_bytes b = some sp) :
    bls12381_min_pk_aggregate [b] = b :=
  aggregate_singleton_eq h

/-- Witness for C6 on a concrete decodable signature buffer. -/
theorem aggregate_singleton_witness :
    bls12381_min_pk_aggregate [natToBytes 96 7] = natToBytes 96 7 :=
  aggregate_singleton (natToBytes 96 7) (7 : ZMod n2) (by decide)

/-- C7: for every message and every aggregate-signature buffer,
`bls12381_min_pk_verify_aggregate` applied to an empty public-key list
returns false (including identity-point or empty signature buffers). -/
theorem verify_aggregate_empty_keys (m a : List Nat) :
    bls12381_min_pk_verify_aggregate [] m a = false := rfl

/-- C8: `bls12381_min_pk_aggregate` applied to the empty list returns the
empty byte buffer. -/
theorem aggregate_nil : bls12381_min_pk_aggregate [] = [] := rfl

/-- C9: the domain separation tag used by both verifiers is exactly the
ASCII byte string `BLS_SIG_BLS12381G2_XMD:SHA-256_SSWU_RO_NUL_`, applied
with an empty augmentation string in every call. -/
theorem dst_exact_and_no_augmentation :
    DST = [66, 76, 83, 95, 83, 73, 71, 95, 66, 76, 83, 49, 50, 51, 56, 49,
      71, 50, 95, 88, 77, 68, 58, 83, 72, 65, 45, 50, 53, 54, 95, 83, 83,
      87, 85, 95, 82, 79, 95, 78, 85, 76, 95] ∧
    (∀ s p m, bls12381_min_pk_verify s p m = minPkVerifyWith DST [] s p m) ∧
    (∀ pks m a, bls12381_min_pk_verify_aggregate pks m a =
      minPkVerifyAggregateWith DST [] pks m a) := by
  refine ⟨by decide, fun s p m => rfl, fun pks m a => ?_⟩
  unfold bls12381_min_pk_verify_aggregate minPkVerifyAggregateWith
  simp only [List.nil_append]

/-- C10: whenever `bls12381_min_pk_aggregate` returns a non-empty buffer,
that buffer has length exactly 96, decodes successfully, and
re-aggregating it alone is the identity. -/
theorem aggregate_output_roundtrip (L : List (List Nat))
    (h : bls12381_min_pk_aggregate L ≠ []) :
    (bls12381_min_pk_aggregate L).length = 96 ∧
    (Signature.from_bytes (bls12381_min_pk_aggregate L)).isSome = true ∧
    bls12381_min_pk_aggregate [bls12381_min_pk_aggregate L] =
      bls12381_min_pk_aggregate L := by
  obtain ⟨agg, hg2, hout⟩ := aggregate_result_point L h
  rw [hout]
  have hdec := Signature.from_bytes_to_bytes hg2
  exact ⟨natToBytes_length 96 agg.val, by rw [hdec]; rfl,
    aggregate_singleton_eq hdec⟩

/-- Witness for C10 on a singleton list producing a non-empty aggregate. -/
theorem aggregate_output_roundtrip_witness :
    (bls12381_min_pk_aggregate [natToBytes 96 7]).length = 96 ∧
    (Signature.from_bytes
      (bls12381_min_pk_aggregate [natToBytes 96 7])).isSome = true ∧
    bls12381_min_pk_aggregate
        [bls12381_min_pk_aggregate [natToBytes 96 7]] =
      bls12381_min_pk_aggregate [natToBytes 96 7] :=
  aggregate_output_roundtrip [natToBytes 96 7] (by decide)

end BlsDart
